import Mathlib

/-!
Verification development for the Bash-Frontend repository.

Shallow embedding of the client-side Session Manager (UserContext.jsx) and
the Financial Aggregator (AdminDashboard.jsx, PackagingContext.jsx).
JavaScript scalar values are modelled by the inductive `JSVal`; machine
floats are modelled by exact rationals (the claims under study concern
which formula is computed, not floating-point rounding).  Fallible code is
modelled with `Option` / `Except`.
-/

/-- Model of a JavaScript scalar value as it can appear in a JSON field of a
backend response (or be absent).  `undefined` models both an absent property and
an explicit `undefined`; finite numbers are `num`, the non-finite doubles are
`nan`, `inf`, `ninf`. -/
inductive JSVal where
  | null
  | undefined
  | num (q : ℚ)
  | nan
  | inf
  | ninf
  | str (s : String)
  | bool (b : Bool)
deriving Repr, DecidableEq

/-- JavaScript truthiness of a scalar value. -/
def jsTruthy : JSVal → Bool
  | .null => false
  | .undefined => false
  | .num q => decide (q ≠ 0)
  | .nan => false
  | .inf => true
  | .ninf => true
  | .str s => decide (s ≠ "")
  | .bool b => b

/-- True exactly for `null` and `undefined` (the values skipped by `??`). -/
def jsNullish : JSVal → Bool
  | .null => true
  | .undefined => true
  | _ => false

/-- Model of the JavaScript `a || b` operator on scalar values. -/
def jsOrV (a b : JSVal) : JSVal := if jsTruthy a then a else b

/-- Model of the JavaScript `a ?? b` operator on scalar values. -/
def jsCoalesceV (a b : JSVal) : JSVal := if jsNullish a then b else a

/-- Characters treated as whitespace by JavaScript regexes and trimming
(the ECMA-262 WhiteSpace and LineTerminator code points: space, tab, line
terminators, NBSP, BOM and the Unicode space separators). -/
def isJsWs (c : Char) : Bool :=
  decide (c.toNat = 0x20 ∨ c.toNat = 0x09 ∨ c.toNat = 0x0a ∨ c.toNat = 0x0d ∨
    c.toNat = 0x0b ∨ c.toNat = 0x0c ∨ c.toNat = 0xa0 ∨ c.toNat = 0x1680 ∨
    (0x2000 ≤ c.toNat ∧ c.toNat ≤ 0x200a) ∨ c.toNat = 0x2028 ∨
    c.toNat = 0x2029 ∨ c.toNat = 0x202f ∨ c.toNat = 0x205f ∨
    c.toNat = 0x3000 ∨ c.toNat = 0xfeff)

/-- Drops leading whitespace characters. -/
def dropWs (cs : List Char) : List Char :=
  match cs with
  | [] => []
  | c :: rest => if isJsWs c then dropWs rest else cs

/-- Trims whitespace on both sides, as `String.prototype.trim` and the
implicit trim inside `Number` do. -/
def trimWs (cs : List Char) : List Char :=
  (dropWs ((dropWs cs).reverse)).reverse

/-- Reads a maximal run of decimal digits; returns their value, how many
digits were consumed, and the rest of the input. -/
def readDigits : List Char → Nat → Nat → Nat × Nat × List Char
  | [], acc, n => (acc, n, [])
  | c :: rest, acc, n =>
      if c.isDigit then readDigits rest (acc * 10 + (c.toNat - 48)) (n + 1)
      else (acc, n, c :: rest)

/-- Reads a maximal run of hexadecimal digits. -/
def readHexDigits : List Char → Nat → Nat → Nat × Nat × List Char
  | [], acc, n => (acc, n, [])
  | c :: rest, acc, n =>
      if c.isDigit then readHexDigits rest (acc * 16 + (c.toNat - 48)) (n + 1)
      else if 'a' ≤ c ∧ c ≤ 'f' then readHexDigits rest (acc * 16 + (c.toNat - 87)) (n + 1)
      else if 'A' ≤ c ∧ c ≤ 'F' then readHexDigits rest (acc * 16 + (c.toNat - 55)) (n + 1)
      else (acc, n, c :: rest)

/-- Parses the exponent part (letter e, optional sign, digits) and applies
it to the mantissa, or fails if the input is nonempty and not an exponent. -/
def parseExpPart (mant : ℚ) (cs : List Char) : Option ℚ :=
  match cs with
  | [] => some mant
  | e :: rest =>
      if e = 'e' ∨ e = 'E' then
        let (sgn, rest2) :=
          match rest with
          | '+' :: r => ((1 : Int), r)
          | '-' :: r => ((-1 : Int), r)
          | r => ((1 : Int), r)
        let (v, n, rest3) := readDigits rest2 0 0
        if n = 0 then none
        else if rest3 ≠ [] then none
        else some (mant * (10 : ℚ) ^ (sgn * (v : Int)))
      else none

/-- Parses an unsigned decimal literal, exactly the StrUnsignedDecimalLiteral
grammar of ECMA-262 `Number(string)`: digits, optionally a dot and more
digits, optionally an exponent; or a dot followed by digits. -/
def parseUnsignedDec (cs : List Char) : Option ℚ :=
  let (ip, ni, rest) := readDigits cs 0 0
  match rest with
  | '.' :: rest2 =>
      let (fp, nf, rest3) := readDigits rest2 0 0
      if ni = 0 ∧ nf = 0 then none
      else parseExpPart ((ip : ℚ) + (fp : ℚ) / ((10 : ℚ) ^ nf)) rest3
  | _ =>
      if ni = 0 then none
      else parseExpPart (ip : ℚ) rest

/-- Model of JavaScript `Number(string)`.  Returns `some q` when the string
converts to a finite number, and `none` when it converts to `NaN` or to an
infinity (every caller in the sources immediately collapses those two cases
into one branch through `Number.isFinite`).  The grammar guaranteed by the
language standard is modelled: trimmed empty string is `0`; optional sign
followed by a decimal literal or the word Infinity; unsigned hexadecimal,
octal and binary radix literals. -/
def jsStrToNum (s : String) : Option ℚ :=
  let cs := trimWs s.toList
  match cs with
  | [] => some 0
  | '+' :: rest =>
      if rest = "Infinity".toList then none else parseUnsignedDec rest
  | '-' :: rest =>
      if rest = "Infinity".toList then none
      else (parseUnsignedDec rest).map (fun q => -q)
  | '0' :: x :: rest =>
      if x = 'x' ∨ x = 'X' then
        let (v, n, rest2) := readHexDigits rest 0 0
        if n = 0 ∨ rest2 ≠ [] then none else some (v : ℚ)
      else if x = 'o' ∨ x = 'O' then
        if rest ≠ [] ∧ rest.all (fun c => '0' ≤ c ∧ c ≤ '7') then
          some ((rest.foldl (fun a c => a * 8 + (c.toNat - 48)) 0 : Nat) : ℚ)
        else none
      else if x = 'b' ∨ x = 'B' then
        if rest ≠ [] ∧ rest.all (fun c => c = '0' ∨ c = '1') then
          some ((rest.foldl (fun a c => a * 2 + (c.toNat - 48)) 0 : Nat) : ℚ)
        else none
      else parseUnsignedDec cs
  | _ =>
      if cs = "Infinity".toList then none else parseUnsignedDec cs

/-- Lowercases an ASCII letter, as the case-insensitive regex flag does on
the letters that matter here. -/
def lcChar (c : Char) : Char := c.toLower

/-- A word character in the sense of regex word boundaries: ASCII letters,
digits and underscore. -/
def isWordChar (c : Char) : Bool := c.isAlphanum ∨ c = '_'

/-- There is a word boundary between the previous original character (none
at the start of the string) and a word character. -/
def boundaryBefore : Option Char → Bool
  | none => true
  | some c => ¬ isWordChar c

/-- One pass of the AdminDashboard regex replace that deletes every
case-insensitive occurrence of the currency markers kes and ksh.  Matches
are found left to right on the original string, exactly as a global regex
replace does. -/
def stripKesKsh : List Char → List Char
  | c1 :: c2 :: c3 :: rest =>
      if lcChar c1 = 'k' ∧ lcChar c2 = 'e' ∧ lcChar c3 = 's' then
        stripKesKsh rest
      else if lcChar c1 = 'k' ∧ lcChar c2 = 's' ∧ lcChar c3 = 'h' then
        stripKesKsh rest
      else c1 :: stripKesKsh (c2 :: c3 :: rest)
  | l => l

/-- The PackagingContext variant of the currency strip: it also deletes the
standalone word sh (between regex word boundaries).  Alternatives are tried
in the order of the source regex, and boundaries are judged against the
original string, which is why the character preceding the scan position is
threaded through. -/
def stripCurrencyGo : Option Char → List Char → List Char
  | _, [] => []
  | _, [c1] => [c1]
  | prev, [c1, c2] =>
      if lcChar c1 = 's' ∧ lcChar c2 = 'h' ∧ boundaryBefore prev then []
      else c1 :: stripCurrencyGo (some c1) [c2]
  | prev, c1 :: c2 :: c3 :: rest2 =>
      if lcChar c1 = 'k' ∧ lcChar c2 = 'e' ∧ lcChar c3 = 's' then
        stripCurrencyGo (some c3) rest2
      else if lcChar c1 = 'k' ∧ lcChar c2 = 's' ∧ lcChar c3 = 'h' then
        stripCurrencyGo (some c3) rest2
      else if lcChar c1 = 's' ∧ lcChar c2 = 'h' ∧ boundaryBefore prev ∧
          ¬ isWordChar c3 then
        stripCurrencyGo (some c2) (c3 :: rest2)
      else c1 :: stripCurrencyGo (some c1) (c2 :: c3 :: rest2)

/-- Cleaning applied to a string by the AdminDashboard helper `num`: delete
kes and ksh, delete commas and whitespace, then trim. -/
def numClean (s : String) : String :=
  String.mk (trimWs ((stripKesKsh s.toList).filter
    (fun c => ¬ (c = ',' ∨ isJsWs c))))

/-- Cleaning applied to a string by the PackagingContext helper `toNum`:
delete the currency words, delete commas, NBSP and whitespace, then keep
only digits, dot and minus. -/
def toNumClean (s : String) : String :=
  String.mk (((stripCurrencyGo none s.toList).filter
    (fun c => ¬ (c = ',' ∨ isJsWs c))).filter
    (fun c => c.isDigit ∨ c = '.' ∨ c = '-'))

/-- Embedding of `num` from AdminDashboard.jsx: the amount normalizer.
Null and undefined give 0; a finite number is returned unchanged; a string
is cleaned of currency decoration and parsed, defaulting to 0; anything
else goes through `Number` and non-finite results give 0. -/
def jsNum : JSVal → ℚ
  | .null => 0
  | .undefined => 0
  | .num q => q
  | .nan => 0
  | .inf => 0
  | .ninf => 0
  | .str s => (jsStrToNum (numClean s)).getD 0
  | .bool b => if b then 1 else 0

/-- Embedding of `toNum` from PackagingContext.jsx.  Identical shape to
`num` but with the stronger string cleaning. -/
def toNum : JSVal → ℚ
  | .null => 0
  | .undefined => 0
  | .num q => q
  | .nan => 0
  | .inf => 0
  | .ninf => 0
  | .str s => (jsStrToNum (toNumClean s)).getD 0
  | .bool b => if b then 1 else 0

/-- Model of a parsed JSON value, the shape produced by JSON.parse on the
middle segment of a JWT. -/
inductive Json where
  | num (q : ℚ)
  | str (s : String)
  | bool (b : Bool)
  | null
  | obj (fields : List (String × Json))
  | arr (elems : List Json)
deriving Repr

/-- Property lookup on a parsed JSON object; JSON.parse keeps the last of
two duplicate keys, hence the reversed scan. -/
def jsonLookup (fields : List (String × Json)) (k : String) : Option Json :=
  fields.reverse.lookup k

/-- Model of a bearer token string at the granularity the session code
observes it: how many dot-separated parts it has, and the result of
base64-decoding and JSON-parsing its middle part (`none` when either step
throws). -/
structure JwtToken where
  numParts : Nat
  payload : Option Json

/-- Embedding of `decodeJwtExp` from UserContext.jsx: requires exactly
three parts, a decodable payload, and a numeric `exp` claim; the claim is
in seconds and is scaled to milliseconds.  Every failure path of the
source (wrong shape, parse exception, missing or non-numeric claim)
returns `none`, matching the null of the source. -/
def decodeJwtExp (t : JwtToken) : Option ℚ :=
  if t.numParts ≠ 3 then none
  else
    match t.payload with
    | none => none
    | some (.obj fields) =>
        match jsonLookup fields "exp" with
        | some (.num q) => some (q * 1000)
        | _ => none
    | some _ => none

/-- Side effects observable outside the session provider: the storage event
listeners fired by `clearAuth` (the auth:logout custom event and the hard
redirect to the login route) and the auth:unauthorized event fired by the
`request` wrapper. -/
inductive AuthEvent where
  | logout
  | redirect
  | unauthorized
deriving Repr, DecidableEq

/-- State owned by the Session Manager: the persisted token and user
(localStorage keys), the in-memory token and user of the reducer, the
single outstanding auto-logout timer (as its absolute fire instant in
milliseconds), and the pending device approval record. -/
structure PendingDeviceApproval where
  ip : JSVal
  user_agent : JSVal
  message : JSVal
  request_id : JSVal
  email_sent : Bool
deriving Repr, DecidableEq

/-- Body attached to a non-2xx response when its JSON parses; the fields
the device-approval branch of `login` reads. -/
structure ErrBody where
  error : JSVal
  message : JSVal
  ip : JSVal
  user_agent : JSVal
  request_id : JSVal
  email_sent : JSVal
deriving Repr, DecidableEq

/-- The error object thrown by `apiFetch` for a non-OK response: HTTP
status (none models a plain thrown Error without a status), the message
string, and the parsed body when available. -/
structure ApiError where
  status : Option Nat
  message : String
  data : Option ErrBody
deriving Repr, DecidableEq

/-- Session Manager state. -/
structure SessionState where
  storedToken : Option JwtToken
  storedUser : Option String
  memToken : Option JwtToken
  memUser : Option String
  timer : Option ℚ
  pendingApproval : Option PendingDeviceApproval

/-- Embedding of `clearAuth`: removes both localStorage keys, cancels the
timer, empties the in-memory token and user, and leaves the pending
approval untouched. -/
def clearAuthState (st : SessionState) : SessionState :=
  { storedToken := none, storedUser := none, memToken := none,
    memUser := none, timer := none, pendingApproval := st.pendingApproval }

/-- The listener notifications produced by one run of `clearAuth`. -/
def clearAuthEvents : List AuthEvent := [.logout, .redirect]

/-- Embedding of `scheduleAutoLogout`: cancel any outstanding timer, decode
the expiry, and return early on a falsy decode result.  The falsy test of
the source catches both a failed decode (null) and a decoded expiry of
exactly 0 milliseconds, so both leave the session untouched with no timer.
A nonzero expiry at or before now clears the session synchronously; a
future expiry schedules a single timer at now + (expiry - now) + 500
milliseconds. -/
def scheduleAutoLogout (st : SessionState) (t : JwtToken) (now : ℚ) :
    SessionState × List AuthEvent :=
  let st1 := { st with timer := none }
  match decodeJwtExp t with
  | none => (st1, [])
  | some expMs =>
      if expMs = 0 then (st1, [])
      else if expMs - now ≤ 0 then (clearAuthState st1, clearAuthEvents)
      else ({ st1 with timer := some (now + (expMs - now) + 500) }, [])

/-- Embedding of `persistAuth`: writes or removes the two storage keys,
updates the reducer state, and schedules or cancels the auto-logout
timer. -/
def persistAuth (st : SessionState) (token : Option JwtToken)
    (user : Option String) (now : ℚ) : SessionState × List AuthEvent :=
  let st1 : SessionState :=
    { st with
      storedToken := token
      storedUser := user
      memToken := token
      memUser := user }
  match token with
  | some t => scheduleAutoLogout st1 t now
  | none => ({ st1 with timer := none }, [])

/-- Embedding of the `request` wrapper around `apiFetch`: a thrown error
with status 401 clears the session and notifies listeners, and every
thrown error is rethrown to the caller. -/
def requestStep {α : Type} (st : SessionState) (resp : Except ApiError α) :
    SessionState × List AuthEvent × Except ApiError α :=
  match resp with
  | .ok v => (st, [], .ok v)
  | .error e =>
      if e.status = some 401 then
        (clearAuthState st, clearAuthEvents ++ [.unauthorized], .error e)
      else (st, [], .error e)

/-- Model of `String.prototype.toLowerCase` on the ASCII strings compared
here: character-wise lowercasing. -/
def lowerStr (s : String) : String := String.mk (s.toList.map Char.toLower)

/-- Boolean test that `pat` occurs as a contiguous run inside `l`. -/
def startsWithChars : List Char → List Char → Bool
  | _, [] => true
  | [], _ :: _ => false
  | c :: cs, d :: ds => c = d ∧ startsWithChars cs ds

/-- Scans for an occurrence of `pat` anywhere in `l`. -/
def containsChars : List Char → List Char → Bool
  | l, pat =>
      if startsWithChars l pat then true
      else
        match l with
        | [] => false
        | _ :: t => containsChars t pat

/-- String containment, modelling `String.prototype.includes`. -/
def containsSub (s pat : String) : Bool := containsChars s.toList pat.toList

/-- The `body` object the device branch of `login` reads: the thrown
error data, or an empty object when none was attached. -/
def bodyOf (e : ApiError) : ErrBody :=
  e.data.getD { error := .undefined, message := .undefined, ip := .undefined,
                user_agent := .undefined, request_id := .undefined, email_sent := .undefined }

/-- The structured code read by `login`: `e?.data?.error || ""`. -/
def errCodeOf (e : ApiError) : JSVal :=
  jsOrV (bodyOf e).error (.str "")

/-- The device-restriction test of `login`: status 403 and either the
structured DEVICE_PENDING code or the lowercased message containing the
word device. -/
def isDevicePending (e : ApiError) : Bool :=
  e.status = some 403 ∧
    (errCodeOf e = .str "DEVICE_PENDING" ∨
      containsSub (lowerStr e.message) "device")

/-- The `PendingDeviceApproval` value stored by the device branch. -/
def pendingValueOf (e : ApiError) : PendingDeviceApproval :=
  let body := bodyOf e
  { ip := body.ip
    user_agent := body.user_agent
    message := jsOrV body.message (jsOrV body.error (.str e.message))
    request_id := jsOrV body.request_id .null
    email_sent := jsTruthy body.email_sent }

/-- The success body of the authentication endpoint as `login` reads it:
`res?.token || ""` and `res?.user || null`, modelled with `none` for a
missing, null or empty token or user. -/
structure LoginResp where
  token : Option JwtToken
  user : Option String

/-- The three results `login` can return. -/
inductive LoginResult where
  | ok (user : String)
  | pending (details : ErrBody)
  | err (message : String)

/-- Embedding of `login` from UserContext.jsx.  The pending approval is
cleared up front; the network outcome then either persists the session and
schedules auto-logout (success with both token and user), fails with the
fixed invalid-response message (malformed success), stores a pending
approval (403 with a device marker), or returns a plain error result.  A
401 flows through the `request` wrapper and clears the session before the
error is examined. -/
def login (st : SessionState) (now : ℚ) (resp : Except ApiError LoginResp) :
    SessionState × List AuthEvent × LoginResult :=
  let st0 := { st with pendingApproval := none }
  match requestStep st0 resp with
  | (st1, evs, .ok res) =>
      match res.token, res.user with
      | some t, some u =>
          let (st2, evs2) := persistAuth st1 (some t) (some u) now
          (st2, evs ++ evs2, .ok u)
      | _, _ => (st1, evs, .err "Invalid login response")
  | (st1, evs, .error e) =>
      if isDevicePending e then
        ({ st1 with pendingApproval := some (pendingValueOf e) }, evs,
          .pending (bodyOf e))
      else (st1, evs, .err e.message)

/-- One raw record of the sales summary endpoint as `fetchSummaryByDate`
in PackagingContext.jsx receives it, with every alternative field name the
mapper consults.  `JSVal.undefined` is an absent property. -/
structure RawSummary where
  date : JSVal := .undefined
  day : JSVal := .undefined
  sale_date : JSVal := .undefined
  created_at : JSVal := .undefined
  gross : JSVal := .undefined
  total : JSVal := .undefined
  total_amount : JSVal := .undefined
  amount_total : JSVal := .undefined
  revenue : JSVal := .undefined
  paid : JSVal := .undefined
  paid_amount : JSVal := .undefined
  amount_paid : JSVal := .undefined
  total_paid : JSVal := .undefined
  balance : JSVal := .undefined
  balance_due : JSVal := .undefined
  amount_due : JSVal := .undefined
  outstanding : JSVal := .undefined
  count : JSVal := .undefined
  num_sales : JSVal := .undefined
  sales_count : JSVal := .undefined

/-- The normalized row produced for each raw summary record. -/
structure SummaryRow where
  date : String
  gross : ℚ
  paid : ℚ
  balance : ℚ
  count : ℚ
deriving Repr, DecidableEq

/-- Falsy-chaining on already normalized amounts, the JavaScript `||` on
numbers produced by `toNum` (whose only falsy output is 0). -/
def qOr (a b : ℚ) : ℚ := if a = 0 then b else a

/-- The gross amount of a raw summary record: normalized alternatives
chained with `||`, ending in `|| 0`. -/
def grossOf (r : RawSummary) : ℚ :=
  qOr (toNum r.gross) (qOr (toNum r.total) (qOr (toNum r.total_amount)
    (qOr (toNum r.amount_total) (qOr (toNum r.revenue) 0))))

/-- The paid amount of a raw summary record, same chaining. -/
def paidOf (r : RawSummary) : ℚ :=
  qOr (toNum r.paid) (qOr (toNum r.paid_amount)
    (qOr (toNum r.amount_paid) (qOr (toNum r.total_paid) 0)))

/-- The raw balance value before normalization: the first present non-null
alternative, with `gross - paid` as the final fallback. -/
def balanceRawOf (r : RawSummary) : JSVal :=
  jsCoalesceV r.balance (jsCoalesceV r.balance_due (jsCoalesceV r.amount_due
    (jsCoalesceV r.outstanding (.num (grossOf r - paidOf r)))))

/-- The normalized balance of a raw summary record. -/
def balanceOf (r : RawSummary) : ℚ := toNum (balanceRawOf r)

/-- Model of `Number(v)` on a scalar followed by the `Number.isFinite`
test, as the count extraction uses it. -/
def jsNumberFinite : JSVal → Option ℚ
  | .null => some 0
  | .undefined => none
  | .num q => some q
  | .nan => none
  | .inf => none
  | .ninf => none
  | .str s => jsStrToNum s
  | .bool b => some (if b then 1 else 0)

/-- The count of a raw summary record: each alternative is kept only when
`Number` of it is finite, chained with `??`, ending in `?? 0`. -/
def countOf (r : RawSummary) : ℚ :=
  ((jsNumberFinite r.count).orElse fun _ =>
    ((jsNumberFinite r.num_sales).orElse fun _ =>
      jsNumberFinite r.sales_count)).getD 0

/-- The date of a raw summary record: `||` chain over date, day and
sale_date with a sliced created_at as last resort, then sliced to ten
characters when a string and replaced by the empty string otherwise. -/
def summaryDateOf (r : RawSummary) : String :=
  let createdAtPart : JSVal :=
    match r.created_at with
    | .str s => .str (s.take 10)
    | _ => .str ""
  let d := jsOrV r.date (jsOrV r.day (jsOrV r.sale_date createdAtPart))
  match d with
  | .str s => s.take 10
  | _ => ""

/-- Embedding of the per-record mapper inside `fetchSummaryByDate` of
PackagingContext.jsx (the response envelope unwrapping above it does not
affect any claim and is not modelled). -/
def normalizeSummary (r : RawSummary) : SummaryRow :=
  { date := summaryDateOf r
    gross := grossOf r
    paid := paidOf r
    balance := balanceOf r
    count := countOf r }

/-- The whole list mapper of `fetchSummaryByDate`. -/
def summaryRowsOf (raw : List RawSummary) : List SummaryRow :=
  raw.map normalizeSummary

/-- The leading calendar-date match of the source regex (four digits,
hyphen, two digits, hyphen, two digits) applied to a raw date string. -/
def isoPrefix (s : String) : Option String :=
  match s.toList with
  | y1 :: y2 :: y3 :: y4 :: h1 :: m1 :: m2 :: h2 :: d1 :: d2 :: _ =>
      if y1.isDigit ∧ y2.isDigit ∧ y3.isDigit ∧ y4.isDigit ∧ h1 = '-' ∧
          m1.isDigit ∧ m2.isDigit ∧ h2 = '-' ∧ d1.isDigit ∧ d2.isDigit then
        some (String.mk [y1, y2, y3, y4, h1, m1, m2, h2, d1, d2])
      else none
  | _ => none

/-- Civil calendar date from a count of days since the Unix epoch
(standard era-based conversion, as the Intl formatter computes it). -/
def civilFromDays (z0 : Int) : Int × Nat × Nat :=
  let z := z0 + 719468
  let era := z.fdiv 146097
  let doe := (z - era * 146097).toNat
  let yoe := (doe - doe / 1460 + doe / 36524 - doe / 146096) / 365
  let y := (yoe : Int) + era * 400
  let doy := doe - (365 * yoe + yoe / 4 - yoe / 100)
  let mp := (5 * doy + 2) / 153
  let d := doy - (153 * mp + 2) / 5 + 1
  let m := if mp < 10 then mp + 3 else mp - 9
  (if m ≤ 2 then y + 1 else y, m, d)

/-- Zero-pads a day or month number to two digits. -/
def pad2 (n : Nat) : String := if n < 10 then "0" ++ toString n else toString n

/-- Embedding of `ymdInKE` / `ymdInNairobi` applied to a valid timestamp:
formats the calendar day of the instant in the Africa/Nairobi timezone,
which is a fixed UTC+3 offset. -/
def ymdInNairobi (ms : Int) : String :=
  let ymd := civilFromDays ((ms + 10800000).fdiv 86400000)
  toString ymd.1 ++ "-" ++ pad2 ymd.2.1 ++ "-" ++ pad2 ymd.2.2

/-- Days since the Unix epoch of a civil date (inverse of
`civilFromDays`). -/
def daysFromCivil (y : Int) (m d : Nat) : Int :=
  let y2 := if m ≤ 2 then y - 1 else y
  let era := y2.fdiv 400
  let yoe := (y2 - era * 400).toNat
  let mp := if m > 2 then m - 3 else m + 9
  let doy := (153 * mp + 2) / 5 + d - 1
  let doe := yoe * 365 + yoe / 4 - yoe / 100 + doy
  era * 146097 + (doe : Int) - 719468

/-- The numeric value of a decimal digit character. -/
def digVal (c : Char) : Nat := c.toNat - 48

/-- Model of `new Date(raw)` for the strings that can reach the fallback
branch of the expense grouping (strings without a leading full calendar
date).  The ECMA-262 Date Time String Format guarantees the year-only and
year-month forms, read as UTC; every other string that reaches this point
is implementation-defined and is modelled as an invalid date (`none`),
including the empty string, which the standard fixes as invalid. -/
def jsParseDate (s : String) : Option Int :=
  match s.toList with
  | [a, b, c, d] =>
      if a.isDigit ∧ b.isDigit ∧ c.isDigit ∧ d.isDigit then
        some (daysFromCivil ((digVal a * 1000 + digVal b * 100 +
          digVal c * 10 + digVal d : Nat) : Int) 1 1 * 86400000)
      else none
  | [a, b, c, d, h, e, f] =>
      let mm := digVal e * 10 + digVal f
      if a.isDigit ∧ b.isDigit ∧ c.isDigit ∧ d.isDigit ∧ h = '-' ∧
          e.isDigit ∧ f.isDigit ∧ 1 ≤ mm ∧ mm ≤ 12 then
        some (daysFromCivil ((digVal a * 1000 + digVal b * 100 +
          digVal c * 10 + digVal d : Nat) : Int) mm 1 * 86400000)
      else none
  | _ => none

/-- An operating-expense or COGS-purchase record as the dashboard reads it:
a category flag, up to two date-bearing fields (the empty string models an
absent or falsy field, matching the `||` chain of the source), and an
amount. -/
structure Expense where
  category : String := ""
  date : String := ""
  created_at : String := ""
  amount : JSVal := .undefined

/-- Embedding of `isCogsExp`: the lowercased category equals cogs. -/
def isCogsExp (e : Expense) : Bool := lowerStr e.category = "cogs"

/-- The day key of an expense record: the first truthy of date and
created_at, matched for a leading calendar date, with the Nairobi
rendering of `new Date(raw)` as fallback.  `none` models the RangeError
that the Intl formatter throws on an invalid date, which aborts the whole
memo computation. -/
def expenseIso (e : Expense) : Option String :=
  let raw := if e.date ≠ "" then e.date else e.created_at
  match isoPrefix raw with
  | some iso => some iso
  | none => (jsParseDate raw).map ymdInNairobi

/-- Adds an amount into a day-keyed accumulator object, modelling
`m[iso] = (m[iso] || 0) + amount` on a plain object whose keys iterate in
insertion order. -/
def groupAdd (m : List (String × ℚ)) (k : String) (v : ℚ) :
    List (String × ℚ) :=
  if k ∈ m.map Prod.fst then
    m.map (fun p => if p.1 = k then (p.1, p.2 + v) else p)
  else m ++ [(k, v)]

/-- Embedding of the shared body of the `opExByDate` and `cogsByDate`
memos: filters by the category flag, derives the day key, skips a falsy
key, and folds amounts per day.  A record whose key derivation throws
makes the whole computation fail. -/
def groupExpenses (wantCogs : Bool) :
    List Expense → List (String × ℚ) → Option (List (String × ℚ))
  | [], m => some m
  | e :: rest, m =>
      if isCogsExp e ≠ wantCogs then groupExpenses wantCogs rest m
      else
        match expenseIso e with
        | none => none
        | some iso =>
            if iso = "" then groupExpenses wantCogs rest m
            else groupExpenses wantCogs rest (groupAdd m iso (jsNum e.amount))

/-- Embedding of the `opExByDate` memo (non-COGS expenses only). -/
def opExByDate (es : List Expense) : Option (List (String × ℚ)) :=
  groupExpenses false es []

/-- Embedding of the `cogsByDate` memo (COGS purchases only). -/
def cogsByDate (es : List Expense) : Option (List (String × ℚ)) :=
  groupExpenses true es []

/-- One record of the sales summary as the dashboard consumes it, with the
alternative field names its pickers consult.  The three date fields are
strings, the empty string modelling an absent or falsy value. -/
structure DashRecord where
  date : String := ""
  day : String := ""
  sale_date : String := ""
  gross : JSVal := .undefined
  total : JSVal := .undefined
  total_amount : JSVal := .undefined
  paid : JSVal := .undefined
  paid_amount : JSVal := .undefined
  balance : JSVal := .undefined
  balance_due : JSVal := .undefined
  count : JSVal := .undefined
  num_sales : JSVal := .undefined

/-- Falsy-chaining on strings, the JavaScript `||`. -/
def strOr (a b : String) : String := if a = "" then b else a

/-- Embedding of `pickDate` from AdminDashboard.jsx. -/
def pickDate (r : DashRecord) : String := strOr r.date (strOr r.day r.sale_date)

/-- Embedding of `pickGross`: `num` of a `??` chain over the raw fields. -/
def pickGross (r : DashRecord) : ℚ :=
  jsNum (jsCoalesceV r.gross (jsCoalesceV r.total r.total_amount))

/-- Embedding of `pickPaid`. -/
def pickPaid (r : DashRecord) : ℚ :=
  jsNum (jsCoalesceV r.paid r.paid_amount)

/-- Embedding of `pickBalance`. -/
def pickBalance (r : DashRecord) : ℚ :=
  jsNum (jsCoalesceV r.balance r.balance_due)

/-- Embedding of `pickCount`. -/
def pickCount (r : DashRecord) : ℚ :=
  jsNum (jsCoalesceV r.count r.num_sales)

/-- One merged day of the dashboard table. -/
structure DayRow where
  date : String
  gross : ℚ
  paid : ℚ
  balance : ℚ
  count : ℚ
  opEx : ℚ
  cogsPurch : ℚ
deriving Repr, DecidableEq

/-- The keys of the JavaScript Map modelled as an insertion-ordered
association list. -/
def keysOf (m : List (String × DayRow)) : List String := m.map Prod.fst

/-- Model of `Map.set`: replaces the value in place when the key exists,
appends otherwise. -/
def mapSet (m : List (String × DayRow)) (k : String) (v : DayRow) :
    List (String × DayRow) :=
  if k ∈ keysOf m then m.map (fun p => if p.1 = k then (p.1, v) else p)
  else m ++ [(k, v)]

/-- The all-zero row inserted for a date first seen in the expense data. -/
def emptyRow (d : String) : DayRow :=
  { date := d, gross := 0, paid := 0, balance := 0, count := 0, opEx := 0,
    cogsPurch := 0 }

/-- The row seeded from one sales-summary record. -/
def seedRow (r : DashRecord) (d : String) : DayRow :=
  { date := d
    gross := pickGross r
    paid := pickPaid r
    balance := pickBalance r
    count := pickCount r
    opEx := 0
    cogsPurch := 0 }

/-- The seeding loop of the day merge: one `Map.set` per sales record with
a truthy date. -/
def seedSales : List DashRecord → List (String × DayRow) →
    List (String × DayRow)
  | [], m => m
  | r :: rest, m =>
      let d := pickDate r
      if d = "" then seedSales rest m
      else seedSales rest (mapSet m d (seedRow r d))

/-- Makes sure a date has a row, appending the all-zero row when absent. -/
def ensureRow (m : List (String × DayRow)) (d : String) :
    List (String × DayRow) :=
  if d ∈ keysOf m then m else m ++ [(d, emptyRow d)]

/-- Adds one grouped operating-expense amount into the map. -/
def bumpOpEx (m : List (String × DayRow)) (d : String) (v : ℚ) :
    List (String × DayRow) :=
  (ensureRow m d).map
    (fun p => if p.1 = d then (p.1, { p.2 with opEx := p.2.opEx + v }) else p)

/-- Adds one grouped COGS-purchase amount into the map. -/
def bumpCogs (m : List (String × DayRow)) (d : String) (v : ℚ) :
    List (String × DayRow) :=
  (ensureRow m d).map
    (fun p =>
      if p.1 = d then (p.1, { p.2 with cogsPurch := p.2.cogsPurch + v }) else p)

/-- The loop over the operating-expense day totals. -/
def addOpExAll : List (String × ℚ) → List (String × DayRow) →
    List (String × DayRow)
  | [], m => m
  | (d, v) :: rest, m => addOpExAll rest (bumpOpEx m d v)

/-- The loop over the COGS-purchase day totals. -/
def addCogsAll : List (String × ℚ) → List (String × DayRow) →
    List (String × DayRow)
  | [], m => m
  | (d, v) :: rest, m => addCogsAll rest (bumpCogs m d v)

/-- Lexicographic at-most on character lists: the ascending order the
comparator `a.date.localeCompare(b.date)` induces on these
digit-and-hyphen day keys (code-point order). -/
def strLeB : List Char → List Char → Bool
  | [], _ => true
  | _ :: _, [] => false
  | a :: as, b :: bs => if a = b then strLeB as bs else decide (a < b)

/-- The lexicographic at-most is total. -/
theorem strLeB_total : ∀ (as bs : List Char),
    strLeB as bs = true ∨ strLeB bs as = true
  | [], _ => Or.inl rfl
  | _ :: _, [] => Or.inr rfl
  | a :: as, b :: bs => by
      simp only [strLeB]
      by_cases hab : a = b
      · subst hab
        simp only [if_pos rfl]
        exact strLeB_total as bs
      · rcases lt_or_gt_of_ne hab with h | h
        · exact Or.inl (by rw [if_neg hab]; exact decide_eq_true h)
        · exact Or.inr (by rw [if_neg (Ne.symm hab)]; exact decide_eq_true h)

/-- The lexicographic at-most is transitive. -/
theorem strLeB_trans : ∀ (as bs cs : List Char),
    strLeB as bs = true → strLeB bs cs = true → strLeB as cs = true
  | [], _, _, _, _ => rfl
  | _ :: _, [], _, h1, _ => by simp [strLeB] at h1
  | _ :: _, _ :: _, [], _, h2 => by simp [strLeB] at h2
  | a :: as, b :: bs, c :: cs, h1, h2 => by
      simp only [strLeB] at h1 h2 ⊢
      by_cases hab : a = b <;> by_cases hbc : b = c
      · subst hab; subst hbc
        simp only [if_pos rfl] at h1 h2 ⊢
        exact strLeB_trans as bs cs h1 h2
      · subst hab
        rw [if_pos rfl] at h1
        rw [if_neg hbc] at h2
        have hac : a < c := of_decide_eq_true h2
        rw [if_neg (ne_of_lt hac)]
        exact h2
      · subst hbc
        rw [if_neg hab] at h1
        have hac : a < b := of_decide_eq_true h1
        rw [if_neg hab]
        exact h1
      · rw [if_neg hab] at h1
        rw [if_neg hbc] at h2
        have hac : a < c :=
          lt_trans (of_decide_eq_true h1) (of_decide_eq_true h2)
        rw [if_neg (ne_of_lt hac)]
        exact decide_eq_true hac

/-- Row comparison used by the final sort: ascending by date string. -/
def dayLe (a b : DayRow) : Prop :=
  strLeB a.date.toList b.date.toList = true

instance : DecidableRel dayLe :=
  fun _ _ => inferInstanceAs (Decidable (_ = true))

instance : IsTotal DayRow dayLe := ⟨fun _ _ => strLeB_total _ _⟩

instance : IsTrans DayRow dayLe := ⟨fun _ _ _ h1 h2 => strLeB_trans _ _ _ h1 h2⟩

/-- Embedding of the `dayRows` memo of AdminDashboard.jsx: seed one row per
sales date, union in the expense and COGS-purchase day totals, and sort the
values ascending by date.  The result is `none` when either grouping memo
throws on an unusable date. -/
def dayRows (sales : List DashRecord) (expenses : List Expense) :
    Option (List DayRow) :=
  match opExByDate expenses, cogsByDate expenses with
  | some oe, some cg =>
      some (List.insertionSort dayLe
        ((addCogsAll cg (addOpExAll oe (seedSales sales []))).map Prod.snd))
  | _, _ => none

/-- The cartons-summary piece of dashboard state (stored raw). -/
structure CartonsSummary where
  by_size : List JSVal
  cartons : JSVal
  revenue : JSVal
deriving Repr, DecidableEq

/-- The totals object of the COGS summary response. -/
structure CogsTotalsRaw where
  sales : JSVal
  cogs : JSVal
deriving Repr, DecidableEq

/-- The COGS summary response as fetched. -/
structure CogsResp where
  totals : Option CogsTotalsRaw
  by_size : List JSVal
deriving Repr, DecidableEq

/-- The normalized COGS summary piece of dashboard state. -/
structure CogsState where
  sales : ℚ
  cogs : ℚ
  by_size : List JSVal
deriving Repr, DecidableEq

/-- The four pieces of dashboard state set by a refresh, plus the loading
flag toggled in the finally block. -/
structure DashboardState where
  salesSummary : List DashRecord
  expenses : List Expense
  cartonsSummary : CartonsSummary
  cogsSummary : CogsState
  loading : Bool

/-- The default cartons summary used when the fetch resolves to a falsy
value. -/
def defaultCartons : CartonsSummary :=
  { by_size := [], cartons := .num 0, revenue := .num 0 }

/-- The normalization applied to the fetched COGS summary before it is
stored: kept (with normalized totals) only when it has a totals object. -/
def normCogs : Option CogsResp → CogsState
  | some r =>
      match r.totals with
      | some t => { sales := jsNum t.sales, cogs := jsNum t.cogs,
                    by_size := r.by_size }
      | none => { sales := 0, cogs := 0, by_size := [] }
  | none => { sales := 0, cogs := 0, by_size := [] }

/-- Embedding of `load` from AdminDashboard.jsx: the four fetches are
awaited together (Promise.all); only when all four resolve are the four
state pieces replaced, otherwise the first rejection propagates to the
caller, the finally block clears the loading flag, and no state piece is
touched. -/
def loadDash (st : DashboardState)
    (rSum : Except String (Option (List DashRecord)))
    (rExp : Except String (Option (List Expense)))
    (rCar : Except String (Option CartonsSummary))
    (rCogs : Except String (Option CogsResp)) :
    DashboardState × Except String Unit :=
  match rSum, rExp, rCar, rCogs with
  | .ok s, .ok e, .ok c, .ok g =>
      ({ salesSummary := s.getD []
         expenses := e.getD []
         cartonsSummary := c.getD defaultCartons
         cogsSummary := normCogs g
         loading := false }, .ok ())
  | .error m, _, _, _ => ({ st with loading := false }, .error m)
  | _, .error m, _, _ => ({ st with loading := false }, .error m)
  | _, _, .error m, _ => ({ st with loading := false }, .error m)
  | _, _, _, .error m => ({ st with loading := false }, .error m)

/-- Specification-shaped selector: the first nonzero amount in a list, the
reading of a `||` chain over normalized candidates. -/
def firstNonzeroQ : List ℚ → ℚ
  | [] => 0
  | q :: rest => if q = 0 then firstNonzeroQ rest else q

/-- Specification-shaped selector: the first present non-null value in a
list of raw candidates, the reading of a `??` chain. -/
def firstNonNullishV : List JSVal → JSVal
  | [] => .undefined
  | v :: rest => if jsNullish v then firstNonNullishV rest else v

/-- A null or undefined scalar normalizes to zero. -/
theorem jsNum_of_nullish {v : JSVal} (h : jsNullish v = true) : jsNum v = 0 := by
  cases v <;> simp_all [jsNullish, jsNum]

/-- Replacing a trailing nullish candidate by undefined does not change the
normalized amount. -/
theorem jsNum_tail (a : JSVal) :
    jsNum (if jsNullish a then JSVal.undefined else a) = jsNum a := by
  cases a <;> simp [jsNullish, jsNum]

/-- C8: both amount normalizers are idempotent (renormalizing their own
output is the identity), and both return 0 on null, on undefined, on the
empty string, and on every string whose cleaned form does not convert to a
finite number. -/
theorem normalizers_idempotent_and_default_zero :
    (∀ v : JSVal, jsNum (.num (jsNum v)) = jsNum v) ∧
    (∀ v : JSVal, toNum (.num (toNum v)) = toNum v) ∧
    jsNum .null = 0 ∧ jsNum .undefined = 0 ∧ jsNum (.str "") = 0 ∧
    toNum .null = 0 ∧ toNum .undefined = 0 ∧ toNum (.str "") = 0 ∧
    (∀ s : String, jsStrToNum (numClean s) = none → jsNum (.str s) = 0) ∧
    (∀ s : String, jsStrToNum (toNumClean s) = none → toNum (.str s) = 0) := by
  refine ⟨fun v => rfl, fun v => rfl, rfl, rfl, by decide, rfl, rfl, by decide,
    ?_, ?_⟩ <;> intro s h <;> simp [jsNum, toNum, h]

/-- C8 witness: the garbage-string clauses applied at concrete garbage. -/
theorem normalizers_idempotent_and_default_zero_w :
    jsNum (.str "garbage") = 0 ∧ toNum (.str "--") = 0 :=
  ⟨normalizers_idempotent_and_default_zero.2.2.2.2.2.2.2.2.1 "garbage" (by decide),
   normalizers_idempotent_and_default_zero.2.2.2.2.2.2.2.2.2 "--" (by decide)⟩

/-- A summary record that pays more than its gross and carries no explicit
balance field. -/
def rNegBalance : RawSummary := { gross := .num 5, paid := .num 10 }

/-- C1 counterexample: with gross 5 and paid 10 and no explicit balance
field, the normalized balance is -5, not max(0, gross - paid) = 0: the
fallback is the raw difference, never clamped at zero. -/
theorem summaryBalance_not_clamped_cex :
    ¬ ((normalizeSummary rNegBalance).balance =
      max 0 ((normalizeSummary rNegBalance).gross -
        (normalizeSummary rNegBalance).paid)) := by
  intro h
  have hb : (normalizeSummary rNegBalance).balance = -5 := by
    norm_num [normalizeSummary, rNegBalance, balanceOf, balanceRawOf,
      jsCoalesceV, jsNullish, toNum, grossOf, paidOf, qOr]
  have hg : (normalizeSummary rNegBalance).gross = 5 := by
    norm_num [normalizeSummary, rNegBalance, grossOf, paidOf, toNum, qOr]
  have hp : (normalizeSummary rNegBalance).paid = 10 := by
    norm_num [normalizeSummary, rNegBalance, grossOf, paidOf, toNum, qOr]
  rw [hb, hg, hp] at h
  norm_num [max_def] at h

/-- When some candidate in the balance chain is present and non-null, the
raw balance selected by the `??` chain of `balanceRawOf` is the first such
candidate. -/
theorem balanceRaw_explicit (r : RawSummary)
    (h : jsNullish (firstNonNullishV
      [r.balance, r.balance_due, r.amount_due, r.outstanding]) = false) :
    balanceRawOf r =
      firstNonNullishV [r.balance, r.balance_due, r.amount_due,
        r.outstanding] := by
  by_cases h1 : jsNullish r.balance
  · by_cases h2 : jsNullish r.balance_due
    · by_cases h3 : jsNullish r.amount_due
      · by_cases h4 : jsNullish r.outstanding
        · exfalso
          simp [firstNonNullishV, h1, h2, h3, h4] at h
          simp [jsNullish] at h
        · simp [balanceRawOf, jsCoalesceV, firstNonNullishV, h1, h2, h3, h4]
      · simp [balanceRawOf, jsCoalesceV, firstNonNullishV, h1, h2, h3]
    · simp [balanceRawOf, jsCoalesceV, firstNonNullishV, h1, h2]
  · simp [balanceRawOf, jsCoalesceV, firstNonNullishV, h1]

/-- C1 (amended): when none of the four balance alternatives is present
and non-null the stored balance is exactly gross - paid (which may be
negative), and when any alternative is present and non-null the first
such value, normalized, wins. -/
theorem summaryBalance_explicit_or_difference :
    (∀ r : RawSummary,
      jsNullish r.balance = true → jsNullish r.balance_due = true →
      jsNullish r.amount_due = true → jsNullish r.outstanding = true →
      (normalizeSummary r).balance =
        (normalizeSummary r).gross - (normalizeSummary r).paid) ∧
    (∀ r : RawSummary,
      jsNullish (firstNonNullishV
        [r.balance, r.balance_due, r.amount_due, r.outstanding]) = false →
      (normalizeSummary r).balance =
        toNum (firstNonNullishV
          [r.balance, r.balance_due, r.amount_due, r.outstanding])) := by
  constructor
  · intro r h1 h2 h3 h4
    simp [normalizeSummary, balanceOf, balanceRawOf, jsCoalesceV, h1, h2, h3,
      h4, toNum]
  · intro r h1
    simp only [normalizeSummary]
    rw [balanceOf, balanceRaw_explicit r h1]

/-- A summary record with an explicit balance of 7 in the first key. -/
def rExplicitBalance : RawSummary :=
  { gross := .num 5, paid := .num 10, balance := .num 7 }

/-- A summary record whose explicit balance arrives through the second
key, behind a null first key. -/
def rBalanceDue : RawSummary :=
  { gross := .num 5, paid := .num 10, balance := .null,
    balance_due := .num 8 }

/-- C1 witness: the amended statement applied at three concrete records:
no explicit balance, explicit balance in the first key, and explicit
balance behind a null in the second key. -/
theorem summaryBalance_explicit_or_difference_w :
    (normalizeSummary rNegBalance).balance =
      (normalizeSummary rNegBalance).gross -
        (normalizeSummary rNegBalance).paid ∧
    (normalizeSummary rExplicitBalance).balance =
      toNum (firstNonNullishV [rExplicitBalance.balance,
        rExplicitBalance.balance_due, rExplicitBalance.amount_due,
        rExplicitBalance.outstanding]) ∧
    (normalizeSummary rBalanceDue).balance =
      toNum (firstNonNullishV [rBalanceDue.balance, rBalanceDue.balance_due,
        rBalanceDue.amount_due, rBalanceDue.outstanding]) :=
  ⟨summaryBalance_explicit_or_difference.1 rNegBalance rfl rfl rfl rfl,
   summaryBalance_explicit_or_difference.2 rExplicitBalance rfl,
   summaryBalance_explicit_or_difference.2 rBalanceDue rfl⟩

/-- A summary record whose first gross candidate is an explicit zero. -/
def rZeroGross : RawSummary := { gross := .num 0, total := .num 100 }

/-- C9 counterexample: in `fetchSummaryByDate` the candidates are chained
with `||` after normalization, so a present, non-null gross of 0 is passed
over and the later total of 100 is used; the first present non-null
candidate does not win when it is zero. -/
theorem pickField_zero_falls_through_cex :
    grossOf rZeroGross = 100 ∧ ¬ grossOf rZeroGross = toNum rZeroGross.gross := by
  decide

/-- Specification-shaped selector: the first candidate that converted to a
finite number, the reading of the isFinite-guarded `??` chain of the count
extraction. -/
def firstFiniteQ : List (Option ℚ) → ℚ
  | [] => 0
  | some q :: _ => q
  | none :: rest => firstFiniteQ rest

/-- C9 (amended): the dashboard pickers (pickGross, pickPaid, pickBalance,
pickCount) use the normalization of the first present non-null candidate,
a zero included; in the summary mapper, gross and paid select the first
candidate with nonzero normalized value (falsy chaining), balance selects
the first present non-null candidate, and count selects the first
candidate whose Number conversion is finite, so an explicit null is used
as 0 rather than skipped.  The two closing conjuncts exhibit the zero and
null cases concretely. -/
theorem field_selection_semantics :
    (∀ r : RawSummary, grossOf r = firstNonzeroQ
      [toNum r.gross, toNum r.total, toNum r.total_amount, toNum r.amount_total,
        toNum r.revenue]) ∧
    (∀ r : RawSummary, paidOf r = firstNonzeroQ
      [toNum r.paid, toNum r.paid_amount, toNum r.amount_paid,
        toNum r.total_paid]) ∧
    (∀ r : DashRecord, pickGross r =
      jsNum (firstNonNullishV [r.gross, r.total, r.total_amount])) ∧
    (∀ r : DashRecord, pickPaid r =
      jsNum (firstNonNullishV [r.paid, r.paid_amount])) ∧
    (∀ r : DashRecord, pickBalance r =
      jsNum (firstNonNullishV [r.balance, r.balance_due])) ∧
    (∀ r : DashRecord, pickCount r =
      jsNum (firstNonNullishV [r.count, r.num_sales])) ∧
    (∀ r : RawSummary,
      jsNullish (firstNonNullishV
        [r.balance, r.balance_due, r.amount_due, r.outstanding]) = false →
      balanceOf r = toNum (firstNonNullishV
        [r.balance, r.balance_due, r.amount_due, r.outstanding])) ∧
    (∀ r : RawSummary, countOf r = firstFiniteQ
      [jsNumberFinite r.count, jsNumberFinite r.num_sales,
        jsNumberFinite r.sales_count]) ∧
    pickGross { gross := .num 0, total := .num 100 } = 0 ∧
    countOf { count := .null, num_sales := .num 9 } = 0 := by
  refine ⟨fun r => ?_, fun r => ?_, fun r => ?_, fun r => ?_, fun r => ?_,
    fun r => ?_, fun r h => ?_, fun r => ?_, by decide, ?_⟩
  · simp [grossOf, qOr, firstNonzeroQ]
  · simp [paidOf, qOr, firstNonzeroQ]
  · simp only [pickGross, jsCoalesceV, firstNonNullishV]
    by_cases h1 : jsNullish r.gross
    · simp only [h1, if_true]
      by_cases h2 : jsNullish r.total
      · simp only [h2, if_true]
        exact (jsNum_tail r.total_amount).symm
      · simp [h2]
    · simp [h1]
  · simp only [pickPaid, jsCoalesceV, firstNonNullishV]
    by_cases h1 : jsNullish r.paid
    · simp only [h1, if_true]
      exact (jsNum_tail r.paid_amount).symm
    · simp [h1]
  · simp only [pickBalance, jsCoalesceV, firstNonNullishV]
    by_cases h1 : jsNullish r.balance
    · simp only [h1, if_true]
      exact (jsNum_tail r.balance_due).symm
    · simp [h1]
  · simp only [pickCount, jsCoalesceV, firstNonNullishV]
    by_cases h1 : jsNullish r.count
    · simp only [h1, if_true]
      exact (jsNum_tail r.num_sales).symm
    · simp [h1]
  · rw [balanceOf, balanceRaw_explicit r h]
  · cases hA : jsNumberFinite r.count <;>
      cases hB : jsNumberFinite r.num_sales <;>
        cases hC : jsNumberFinite r.sales_count <;>
          simp [countOf, firstFiniteQ, hA, hB, hC]
  · norm_num [countOf, jsNumberFinite]

/-- A summary record whose only balance information is in the fourth key,
behind null and undefined earlier keys. -/
def rOutstanding : RawSummary :=
  { gross := .num 1, paid := .num 1, balance := .null,
    amount_due := .null, outstanding := .num 3 }

/-- C9 witness: the explicit-balance clause applied at a record whose
balance arrives through the outstanding key. -/
theorem field_selection_semantics_w :
    balanceOf rOutstanding = toNum (firstNonNullishV [rOutstanding.balance,
      rOutstanding.balance_due, rOutstanding.amount_due,
      rOutstanding.outstanding]) :=
  field_selection_semantics.2.2.2.2.2.2.1 rOutstanding rfl

/-- C2: a call through the `request` wrapper that fails with status 401
clears the whole session (both storage keys removed, in-memory token and
user emptied, expiry timer cancelled), notifies listeners with the logout
and unauthorized events, and still propagates the error to the caller. -/
theorem request_unauthorized_clears_session {α : Type} (st : SessionState)
    (e : ApiError) (h : e.status = some 401) :
    (@requestStep α st (.error e)).1.storedToken = none ∧
    (@requestStep α st (.error e)).1.storedUser = none ∧
    (@requestStep α st (.error e)).1.memToken = none ∧
    (@requestStep α st (.error e)).1.memUser = none ∧
    (@requestStep α st (.error e)).1.timer = none ∧
    AuthEvent.logout ∈ (@requestStep α st (.error e)).2.1 ∧
    AuthEvent.unauthorized ∈ (@requestStep α st (.error e)).2.1 ∧
    (@requestStep α st (.error e)).2.2 = .error e := by
  simp [requestStep, h, clearAuthState, clearAuthEvents]

/-- A session with a live token, user, and timer, used to instantiate the
session theorems. -/
def stLoggedIn : SessionState :=
  { storedToken := some { numParts := 3, payload := some (.obj [("exp", .num 2000)]) }
    storedUser := some "alice"
    memToken := some { numParts := 3, payload := some (.obj [("exp", .num 2000)]) }
    memUser := some "alice"
    timer := some 1999999
    pendingApproval := none }

/-- A plain 401 error value. -/
def err401 : ApiError := { status := some 401, message := "401 UNAUTHORIZED", data := none }

/-- C2 witness: the wrapper applied to a live session and a concrete 401. -/
theorem request_unauthorized_clears_session_w :
    (@requestStep Unit stLoggedIn (.error err401)).1.storedToken = none ∧
    (@requestStep Unit stLoggedIn (.error err401)).1.storedUser = none ∧
    (@requestStep Unit stLoggedIn (.error err401)).1.memToken = none ∧
    (@requestStep Unit stLoggedIn (.error err401)).1.memUser = none ∧
    (@requestStep Unit stLoggedIn (.error err401)).1.timer = none ∧
    AuthEvent.logout ∈ (@requestStep Unit stLoggedIn (.error err401)).2.1 ∧
    AuthEvent.unauthorized ∈ (@requestStep Unit stLoggedIn (.error err401)).2.1 ∧
    (@requestStep Unit stLoggedIn (.error err401)).2.2 = .error err401 :=
  @request_unauthorized_clears_session Unit stLoggedIn err401 rfl

/-- C4: when the decoded expiry lies in the future at assignment time, the
timer scheduled by `scheduleAutoLogout` is the single outstanding one, its
delay is exactly (expiry - now) plus the 500 millisecond skew, and its fire
instant is at or after the expiry instant, never before.  The hypothesis
that now is nonnegative models the clock reading being a real Date.now
value (milliseconds since the epoch); it rules out a decoded expiry of 0
counting as a future expiry, which would otherwise hit the falsy early
return of the source. -/
theorem autoLogout_fires_at_or_after_expiry (st : SessionState) (t : JwtToken)
    (now expMs : ℚ) (hdec : decodeJwtExp t = some expMs)
    (hnow : 0 ≤ now) (hfut : 0 < expMs - now) :
    (scheduleAutoLogout st t now).1.timer = some (now + (expMs - now) + 500) ∧
    expMs ≤ now + (expMs - now) + 500 := by
  have hne : expMs ≠ 0 := by
    intro h0
    rw [h0] at hfut
    linarith
  constructor
  · simp [scheduleAutoLogout, hdec, hne, not_le.2 hfut]
  · linarith

/-- A well-formed token whose exp claim is 2000 seconds after the epoch. -/
def tokExp2000 : JwtToken :=
  { numParts := 3, payload := some (.obj [("exp", .num 2000)]) }

/-- C4 witness: at now = 1500000 ms the token expiring at 2000000 ms gets a
timer at 2000500 ms, at or after the expiry. -/
theorem autoLogout_fires_at_or_after_expiry_w :
    (scheduleAutoLogout stLoggedIn tokExp2000 1500000).1.timer =
      some (1500000 + ((2000000 : ℚ) - 1500000) + 500) ∧
    (2000000 : ℚ) ≤ 1500000 + ((2000000 : ℚ) - 1500000) + 500 :=
  autoLogout_fires_at_or_after_expiry stLoggedIn tokExp2000 1500000 2000000
    (by norm_num [decodeJwtExp, tokExp2000, jsonLookup]) (by norm_num)
    (by norm_num)

/-- A well-formed token whose exp claim is exactly 0 (the epoch). -/
def tokExp0 : JwtToken :=
  { numParts := 3, payload := some (.obj [("exp", .num 0)]) }

/-- C5 counterexample: a token with a decodable expiry of 0 seconds is in
the past at now = 1500000 ms, yet the source's falsy early return leaves
the session uncleared (the stored token survives) and notifies nobody —
the claimed synchronous clearing does not happen. -/
theorem autoLogout_epoch_expiry_not_cleared_cex :
    decodeJwtExp tokExp0 = some 0 ∧
    ((0 : ℚ) - 1500000 ≤ 0) ∧
    (scheduleAutoLogout stLoggedIn tokExp0 1500000).1.storedToken =
      stLoggedIn.storedToken ∧
    ¬ stLoggedIn.storedToken = none ∧
    (scheduleAutoLogout stLoggedIn tokExp0 1500000).2 = [] := by
  have hdec : decodeJwtExp tokExp0 = some 0 := by
    norm_num [decodeJwtExp, tokExp0, jsonLookup]
  refine ⟨hdec, by norm_num, ?_, by simp [stLoggedIn], ?_⟩
  · simp [scheduleAutoLogout, hdec]
  · simp [scheduleAutoLogout, hdec]

/-- C5 (amended): a token without a decodable expiry schedules nothing
(the session is left as it was, any previous timer cancelled); the same
holds when the expiry decodes to the falsy value 0, which the source's
early return treats like a missing expiry; and a token whose decoded
expiry is nonzero and already past clears the session synchronously with
no timer scheduled. -/
theorem autoLogout_missing_or_past_expiry :
    (∀ (st : SessionState) (t : JwtToken) (now : ℚ), decodeJwtExp t = none →
      scheduleAutoLogout st t now = ({ st with timer := none }, [])) ∧
    (∀ (st : SessionState) (t : JwtToken) (now : ℚ),
      decodeJwtExp t = some 0 →
      scheduleAutoLogout st t now = ({ st with timer := none }, [])) ∧
    (∀ (st : SessionState) (t : JwtToken) (now expMs : ℚ),
      decodeJwtExp t = some expMs → expMs ≠ 0 → expMs - now ≤ 0 →
      (scheduleAutoLogout st t now).1 = clearAuthState st ∧
      (scheduleAutoLogout st t now).1.timer = none ∧
      (scheduleAutoLogout st t now).2 = clearAuthEvents) := by
  refine ⟨?_, ?_, ?_⟩
  · intro st t now hdec
    simp [scheduleAutoLogout, hdec]
  · intro st t now hdec
    simp [scheduleAutoLogout, hdec]
  · intro st t now expMs hdec hne hpast
    simp [scheduleAutoLogout, hdec, hne, hpast, clearAuthState]

/-- A malformed token: only two dot-separated parts. -/
def tokTwoParts : JwtToken := { numParts := 2, payload := none }

/-- C5 witness: the three clauses applied to a two-part token, to the
epoch-expiry token, and to the 2000 second token observed at
now = 3000000 ms (already expired). -/
theorem autoLogout_missing_or_past_expiry_w :
    scheduleAutoLogout stLoggedIn tokTwoParts 1500000 =
      ({ stLoggedIn with timer := none }, []) ∧
    scheduleAutoLogout stLoggedIn tokExp0 1500000 =
      ({ stLoggedIn with timer := none }, []) ∧
    (scheduleAutoLogout stLoggedIn tokExp2000 3000000).1 =
      clearAuthState stLoggedIn ∧
    (scheduleAutoLogout stLoggedIn tokExp2000 3000000).1.timer = none ∧
    (scheduleAutoLogout stLoggedIn tokExp2000 3000000).2 = clearAuthEvents :=
  ⟨autoLogout_missing_or_past_expiry.1 stLoggedIn tokTwoParts 1500000 rfl,
   autoLogout_missing_or_past_expiry.2.1 stLoggedIn tokExp0 1500000
     (by norm_num [decodeJwtExp, tokExp0, jsonLookup]),
   autoLogout_missing_or_past_expiry.2.2 stLoggedIn tokExp2000 3000000 2000000
     (by norm_num [decodeJwtExp, tokExp2000, jsonLookup]) (by norm_num)
     (by norm_num)⟩

/-- C3: a login failure with status 403 and a device marker (structured
DEVICE_PENDING code, or a message containing the word device) stores the
pending approval built from the response body and returns the distinct
pending result, leaving the stored and in-memory token and user untouched;
every other login failure returns a plain error result, never persists a
new token or user, and leaves no pending approval. -/
theorem login_device_pending_branch :
    (∀ (st : SessionState) (now : ℚ) (e : ApiError),
      isDevicePending e = true →
      (login st now (.error e)).1.pendingApproval = some (pendingValueOf e) ∧
      (login st now (.error e)).2.2 = .pending (bodyOf e) ∧
      (login st now (.error e)).1.storedToken = st.storedToken ∧
      (login st now (.error e)).1.storedUser = st.storedUser ∧
      (login st now (.error e)).1.memToken = st.memToken ∧
      (login st now (.error e)).1.memUser = st.memUser) ∧
    (∀ (st : SessionState) (now : ℚ) (e : ApiError),
      isDevicePending e = false →
      (login st now (.error e)).2.2 = .err e.message ∧
      (login st now (.error e)).1.pendingApproval = none ∧
      (e.status ≠ some 401 →
        (login st now (.error e)).1.storedToken = st.storedToken ∧
        (login st now (.error e)).1.storedUser = st.storedUser) ∧
      (e.status = some 401 →
        (login st now (.error e)).1.storedToken = none ∧
        (login st now (.error e)).1.storedUser = none)) := by
  constructor
  · intro st now e h
    have h403 : e.status = some 403 := (of_decide_eq_true h).1
    simp [login, requestStep, h403, h]
  · intro st now e h
    by_cases h401 : e.status = some 401
    · simp [login, requestStep, h401, h, clearAuthState]
    · simp [login, requestStep, h401, h]

/-- A device-restriction error as the backend sends it: 403 with the
structured code and the context fields. -/
def errDevice : ApiError :=
  { status := some 403
    message := "New device detected"
    data := some
      { error := .str "DEVICE_PENDING"
        message := .str "Approval required for this device"
        ip := .str "203.0.113.9"
        user_agent := .str "Mozilla/5.0"
        request_id := .num 42
        email_sent := .bool true } }

/-- A plain validation failure. -/
def errBadCreds : ApiError :=
  { status := some 400, message := "Wrong email or password", data := none }

/-- C3 witness: both clauses applied at concrete errors against the live
session. -/
theorem login_device_pending_branch_w :
    (login stLoggedIn 0 (.error errDevice)).1.pendingApproval =
      some (pendingValueOf errDevice) ∧
    (login stLoggedIn 0 (.error errDevice)).2.2 = .pending (bodyOf errDevice) ∧
    (login stLoggedIn 0 (.error errDevice)).1.storedToken =
      stLoggedIn.storedToken ∧
    (login stLoggedIn 0 (.error errBadCreds)).2.2 =
      .err "Wrong email or password" ∧
    (login stLoggedIn 0 (.error errBadCreds)).1.storedToken =
      stLoggedIn.storedToken := by
  have h1 := login_device_pending_branch.1 stLoggedIn 0 errDevice (by decide)
  have h2 := login_device_pending_branch.2 stLoggedIn 0 errBadCreds (by decide)
  exact ⟨h1.1, h1.2.1, h1.2.2.1, h2.1, (h2.2.2.1 (by decide)).1⟩

/-- C10: a success response missing its token or its user makes `login`
return the fixed invalid-response error, and both storage keys, the
in-memory token and user, and the timer are exactly as before the call:
a malformed success never creates a partial session. -/
theorem login_malformed_success_no_partial_session
    (st : SessionState) (now : ℚ) (res : LoginResp)
    (h : res.token = none ∨ res.user = none) :
    (login st now (.ok res)).2.2 = .err "Invalid login response" ∧
    (login st now (.ok res)).1.storedToken = st.storedToken ∧
    (login st now (.ok res)).1.storedUser = st.storedUser ∧
    (login st now (.ok res)).1.memToken = st.memToken ∧
    (login st now (.ok res)).1.memUser = st.memUser ∧
    (login st now (.ok res)).1.timer = st.timer := by
  match hres1 : res.token, hres2 : res.user with
  | none, _ => simp [login, requestStep, hres1]
  | some t, none => simp [login, requestStep, hres1, hres2]
  | some t, some u => simp [hres1, hres2] at h

/-- C10 witness: a success body with a user but an empty token leaves the
live session untouched and fails with the fixed message. -/
theorem login_malformed_success_no_partial_session_w :
    (login stLoggedIn 0 (.ok { token := none, user := some "bob" })).2.2 =
      .err "Invalid login response" ∧
    (login stLoggedIn 0 (.ok { token := none, user := some "bob" })).1.storedToken =
      stLoggedIn.storedToken ∧
    (login stLoggedIn 0 (.ok { token := none, user := some "bob" })).1.storedUser =
      stLoggedIn.storedUser ∧
    (login stLoggedIn 0 (.ok { token := none, user := some "bob" })).1.memToken =
      stLoggedIn.memToken ∧
    (login stLoggedIn 0 (.ok { token := none, user := some "bob" })).1.memUser =
      stLoggedIn.memUser ∧
    (login stLoggedIn 0 (.ok { token := none, user := some "bob" })).1.timer =
      stLoggedIn.timer :=
  login_malformed_success_no_partial_session stLoggedIn 0
    { token := none, user := some "bob" } (Or.inl rfl)

/-- C7: when any of the four concurrently awaited fetches of a dashboard
refresh rejects, none of the four state pieces changes and the refresh
returns an error to the caller. -/
theorem load_all_or_nothing (st : DashboardState)
    (rSum : Except String (Option (List DashRecord)))
    (rExp : Except String (Option (List Expense)))
    (rCar : Except String (Option CartonsSummary))
    (rCogs : Except String (Option CogsResp))
    (h : (∃ m, rSum = .error m) ∨ (∃ m, rExp = .error m) ∨
      (∃ m, rCar = .error m) ∨ (∃ m, rCogs = .error m)) :
    (loadDash st rSum rExp rCar rCogs).1.salesSummary = st.salesSummary ∧
    (loadDash st rSum rExp rCar rCogs).1.expenses = st.expenses ∧
    (loadDash st rSum rExp rCar rCogs).1.cartonsSummary = st.cartonsSummary ∧
    (loadDash st rSum rExp rCar rCogs).1.cogsSummary = st.cogsSummary ∧
    ∃ m, (loadDash st rSum rExp rCar rCogs).2 = .error m := by
  cases rSum <;> cases rExp <;> cases rCar <;> cases rCogs <;>
    simp_all [loadDash]

/-- An arbitrary populated dashboard state. -/
def dashBefore : DashboardState :=
  { salesSummary := [{ date := "2024-01-01", gross := .num 10 }]
    expenses := [{ category := "misc", date := "2024-01-01", amount := .num 2 }]
    cartonsSummary := { by_size := [], cartons := .num 4, revenue := .num 9 }
    cogsSummary := { sales := 20, cogs := 12, by_size := [] }
    loading := false }

/-- C7 witness: with the expenses fetch failing and the other three
succeeding, every displayed piece keeps its previous value and the refresh
surfaces the failure. -/
theorem load_all_or_nothing_w :
    (loadDash dashBefore (.ok (some [])) (.error "network down")
        (.ok none) (.ok none)).1.salesSummary = dashBefore.salesSummary ∧
    (loadDash dashBefore (.ok (some [])) (.error "network down")
        (.ok none) (.ok none)).1.expenses = dashBefore.expenses ∧
    (loadDash dashBefore (.ok (some [])) (.error "network down")
        (.ok none) (.ok none)).1.cartonsSummary = dashBefore.cartonsSummary ∧
    (loadDash dashBefore (.ok (some [])) (.error "network down")
        (.ok none) (.ok none)).1.cogsSummary = dashBefore.cogsSummary ∧
    (loadDash dashBefore (.ok (some [])) (.error "network down")
        (.ok none) (.ok none)).2 = .error "network down" := by
  have h := load_all_or_nothing dashBefore (.ok (some [])) (.error "network down")
    (.ok none) (.ok none) (Or.inr (Or.inl ⟨"network down", rfl⟩))
  exact ⟨h.1, h.2.1, h.2.2.1, h.2.2.2.1, rfl⟩

/-- Every value of the day map records the date it is keyed under. -/
def datesMatch (m : List (String × DayRow)) : Prop :=
  ∀ p ∈ m, (p.2).date = p.1

/-- A value-only rewrite of an association list keeps its key list. -/
theorem map_fst_of_fst_eq {β : Type} (g : String × β → String × β)
    (hg : ∀ p, (g p).1 = p.1) : ∀ (m : List (String × β)),
    (m.map g).map Prod.fst = m.map Prod.fst
  | [] => rfl
  | p :: t => by simp [hg, map_fst_of_fst_eq g hg t]

/-- Key list of `mapSet`: unchanged on overwrite, the new key appended
otherwise. -/
theorem keysOf_mapSet (m : List (String × DayRow)) (k : String) (v : DayRow) :
    keysOf (mapSet m k v) =
      if k ∈ keysOf m then keysOf m else keysOf m ++ [k] := by
  by_cases h : k ∈ keysOf m
  · rw [mapSet, if_pos h, if_pos h]
    exact map_fst_of_fst_eq _ (fun p => by split <;> rfl) m
  · rw [mapSet, if_neg h, if_neg h]
    simp [keysOf]

/-- Key membership after `mapSet`. -/
theorem mem_keysOf_mapSet {a : String} (m : List (String × DayRow))
    (k : String) (v : DayRow) :
    a ∈ keysOf (mapSet m k v) ↔ a ∈ keysOf m ∨ a = k := by
  rw [keysOf_mapSet]
  by_cases h : k ∈ keysOf m
  · rw [if_pos h]
    constructor
    · exact Or.inl
    · rintro (ha | rfl)
      · exact ha
      · exact h
  · rw [if_neg h]
    simp

/-- `mapSet` keeps the key list duplicate free. -/
theorem nodup_keysOf_mapSet (m : List (String × DayRow)) (k : String)
    (v : DayRow) (h : (keysOf m).Nodup) : (keysOf (mapSet m k v)).Nodup := by
  rw [keysOf_mapSet]
  by_cases hk : k ∈ keysOf m
  · rw [if_pos hk]
    exact h
  · rw [if_neg hk]
    simp [List.nodup_append, h, hk]

/-- `mapSet` with a value dated like its key keeps the date invariant. -/
theorem datesMatch_mapSet (m : List (String × DayRow)) (k : String)
    (v : DayRow) (hv : v.date = k) (h : datesMatch m) :
    datesMatch (mapSet m k v) := by
  intro p hp
  rw [mapSet] at hp
  split at hp
  · rcases List.mem_map.mp hp with ⟨q, hq, hqe⟩
    by_cases hqk : q.1 = k
    · rw [if_pos hqk] at hqe
      rw [← hqe]
      rw [hv, hqk]
    · rw [if_neg hqk] at hqe
      rw [← hqe]
      exact h q hq
  · rcases List.mem_append.mp hp with hp | hp
    · exact h p hp
    · simp only [List.mem_singleton] at hp
      rw [hp]
      exact hv

/-- Key list of `ensureRow`. -/
theorem keysOf_ensureRow (m : List (String × DayRow)) (d : String) :
    keysOf (ensureRow m d) =
      if d ∈ keysOf m then keysOf m else keysOf m ++ [d] := by
  by_cases h : d ∈ keysOf m
  · rw [ensureRow, if_pos h, if_pos h]
  · rw [ensureRow, if_neg h, if_neg h]
    simp [keysOf]

/-- Key membership after `ensureRow`. -/
theorem mem_keysOf_ensureRow {a : String} (m : List (String × DayRow))
    (d : String) : a ∈ keysOf (ensureRow m d) ↔ a ∈ keysOf m ∨ a = d := by
  rw [keysOf_ensureRow]
  by_cases h : d ∈ keysOf m
  · rw [if_pos h]
    constructor
    · exact Or.inl
    · rintro (ha | rfl)
      · exact ha
      · exact h
  · rw [if_neg h]
    simp

/-- `ensureRow` keeps the key list duplicate free. -/
theorem nodup_keysOf_ensureRow (m : List (String × DayRow)) (d : String)
    (h : (keysOf m).Nodup) : (keysOf (ensureRow m d)).Nodup := by
  rw [keysOf_ensureRow]
  by_cases hk : d ∈ keysOf m
  · rw [if_pos hk]
    exact h
  · rw [if_neg hk]
    simp [List.nodup_append, h, hk]

/-- `ensureRow` keeps the date invariant. -/
theorem datesMatch_ensureRow (m : List (String × DayRow)) (d : String)
    (h : datesMatch m) : datesMatch (ensureRow m d) := by
  intro p hp
  rw [ensureRow] at hp
  split at hp
  · exact h p hp
  · rcases List.mem_append.mp hp with hp | hp
    · exact h p hp
    · simp only [List.mem_singleton] at hp
      rw [hp]
      rfl

/-- `bumpOpEx` only rewrites one value, so its keys are those of
`ensureRow`. -/
theorem keysOf_bumpOpEx (m : List (String × DayRow)) (d : String) (v : ℚ) :
    keysOf (bumpOpEx m d v) = keysOf (ensureRow m d) :=
  map_fst_of_fst_eq _ (fun p => by split <;> rfl) _

/-- `bumpCogs` only rewrites one value, so its keys are those of
`ensureRow`. -/
theorem keysOf_bumpCogs (m : List (String × DayRow)) (d : String) (v : ℚ) :
    keysOf (bumpCogs m d v) = keysOf (ensureRow m d) :=
  map_fst_of_fst_eq _ (fun p => by split <;> rfl) _

/-- `bumpOpEx` keeps the date invariant. -/
theorem datesMatch_bumpOpEx (m : List (String × DayRow)) (d : String) (v : ℚ)
    (h : datesMatch m) : datesMatch (bumpOpEx m d v) := by
  intro p hp
  rcases List.mem_map.mp hp with ⟨q, hq, hqe⟩
  have hqd := datesMatch_ensureRow m d h q hq
  rw [← hqe]
  split
  · exact hqd
  · exact hqd

/-- `bumpCogs` keeps the date invariant. -/
theorem datesMatch_bumpCogs (m : List (String × DayRow)) (d : String) (v : ℚ)
    (h : datesMatch m) : datesMatch (bumpCogs m d v) := by
  intro p hp
  rcases List.mem_map.mp hp with ⟨q, hq, hqe⟩
  have hqd := datesMatch_ensureRow m d h q hq
  rw [← hqe]
  split
  · exact hqd
  · exact hqd

/-- Keys of the day-keyed amount accumulator. -/
def qKeys (m : List (String × ℚ)) : List String := m.map Prod.fst

/-- Key list of `groupAdd`: unchanged on an existing day, the new day
appended otherwise. -/
theorem qKeys_groupAdd (m : List (String × ℚ)) (k : String) (v : ℚ) :
    qKeys (groupAdd m k v) =
      if k ∈ qKeys m then qKeys m else qKeys m ++ [k] := by
  by_cases h : k ∈ qKeys m
  · rw [groupAdd]
    rw [if_pos (show k ∈ m.map Prod.fst from h), if_pos h]
    exact map_fst_of_fst_eq _ (fun p => by split <;> rfl) m
  · rw [groupAdd]
    rw [if_neg (show ¬ k ∈ m.map Prod.fst from h), if_neg h]
    simp [qKeys]

/-- Key membership after `groupAdd`. -/
theorem mem_qKeys_groupAdd {a : String} (m : List (String × ℚ)) (k : String)
    (v : ℚ) : a ∈ qKeys (groupAdd m k v) ↔ a ∈ qKeys m ∨ a = k := by
  rw [qKeys_groupAdd]
  by_cases h : k ∈ qKeys m
  · rw [if_pos h]
    constructor
    · exact Or.inl
    · rintro (ha | rfl)
      · exact ha
      · exact h
  · rw [if_neg h]
    simp

/-- Key membership after seeding: the starting keys plus every truthy
sales date. -/
theorem mem_keysOf_seedSales {a : String} :
    ∀ (sales : List DashRecord) (m : List (String × DayRow)),
    a ∈ keysOf (seedSales sales m) ↔
      a ∈ keysOf m ∨ ∃ r, r ∈ sales ∧ pickDate r = a ∧ a ≠ ""
  | [], m => by simp [seedSales]
  | r :: rest, m => by
      by_cases hd : pickDate r = ""
      · rw [seedSales, if_pos hd, mem_keysOf_seedSales rest m]
        constructor
        · rintro (h | ⟨r', hr', he, hne⟩)
          · exact Or.inl h
          · exact Or.inr ⟨r', List.mem_cons_of_mem _ hr', he, hne⟩
        · rintro (h | ⟨r', hr', he, hne⟩)
          · exact Or.inl h
          · rcases List.mem_cons.mp hr' with rfl | hr'
            · exact absurd (by rw [← he, hd]) hne
            · exact Or.inr ⟨r', hr', he, hne⟩
      · rw [seedSales, if_neg hd,
          mem_keysOf_seedSales rest (mapSet m (pickDate r) (seedRow r (pickDate r))),
          mem_keysOf_mapSet]
        constructor
        · rintro ((h | rfl) | ⟨r', hr', he, hne⟩)
          · exact Or.inl h
          · exact Or.inr ⟨r, List.mem_cons_self r rest, rfl, hd⟩
          · exact Or.inr ⟨r', List.mem_cons_of_mem _ hr', he, hne⟩
        · rintro (h | ⟨r', hr', he, hne⟩)
          · exact Or.inl (Or.inl h)
          · rcases List.mem_cons.mp hr' with rfl | hr'
            · exact Or.inl (Or.inr he.symm)
            · exact Or.inr ⟨r', hr', he, hne⟩

/-- Seeding keeps the key list duplicate free. -/
theorem nodup_keysOf_seedSales :
    ∀ (sales : List DashRecord) (m : List (String × DayRow)),
    (keysOf m).Nodup → (keysOf (seedSales sales m)).Nodup
  | [], _, h => h
  | r :: rest, m, h => by
      rw [seedSales]
      split
      · exact nodup_keysOf_seedSales rest m h
      · exact nodup_keysOf_seedSales rest _ (nodup_keysOf_mapSet _ _ _ h)

/-- Seeding keeps the date invariant. -/
theorem datesMatch_seedSales :
    ∀ (sales : List DashRecord) (m : List (String × DayRow)),
    datesMatch m → datesMatch (seedSales sales m)
  | [], _, h => h
  | r :: rest, m, h => by
      rw [seedSales]
      split
      · exact datesMatch_seedSales rest m h
      · exact datesMatch_seedSales rest _ (datesMatch_mapSet _ _ _ rfl h)

/-- Key membership after folding the operating-expense day totals. -/
theorem mem_keysOf_addOpExAll {a : String} :
    ∀ (l : List (String × ℚ)) (m : List (String × DayRow)),
    a ∈ keysOf (addOpExAll l m) ↔ a ∈ keysOf m ∨ a ∈ qKeys l
  | [], m => by simp [addOpExAll, qKeys]
  | (d, v) :: rest, m => by
      rw [addOpExAll, mem_keysOf_addOpExAll rest (bumpOpEx m d v),
        keysOf_bumpOpEx, mem_keysOf_ensureRow]
      have : qKeys ((d, v) :: rest) = d :: qKeys rest := rfl
      rw [this]
      simp only [List.mem_cons]
      tauto

/-- Key membership after folding the COGS-purchase day totals. -/
theorem mem_keysOf_addCogsAll {a : String} :
    ∀ (l : List (String × ℚ)) (m : List (String × DayRow)),
    a ∈ keysOf (addCogsAll l m) ↔ a ∈ keysOf m ∨ a ∈ qKeys l
  | [], m => by simp [addCogsAll, qKeys]
  | (d, v) :: rest, m => by
      rw [addCogsAll, mem_keysOf_addCogsAll rest (bumpCogs m d v),
        keysOf_bumpCogs, mem_keysOf_ensureRow]
      have : qKeys ((d, v) :: rest) = d :: qKeys rest := rfl
      rw [this]
      simp only [List.mem_cons]
      tauto

/-- Folding amounts keeps the key list duplicate free. -/
theorem nodup_keysOf_addOpExAll :
    ∀ (l : List (String × ℚ)) (m : List (String × DayRow)),
    (keysOf m).Nodup → (keysOf (addOpExAll l m)).Nodup
  | [], _, h => h
  | (d, v) :: rest, m, h => by
      rw [addOpExAll]
      refine nodup_keysOf_addOpExAll rest _ ?_
      rw [keysOf_bumpOpEx]
      exact nodup_keysOf_ensureRow _ _ h

/-- Folding amounts keeps the key list duplicate free. -/
theorem nodup_keysOf_addCogsAll :
    ∀ (l : List (String × ℚ)) (m : List (String × DayRow)),
    (keysOf m).Nodup → (keysOf (addCogsAll l m)).Nodup
  | [], _, h => h
  | (d, v) :: rest, m, h => by
      rw [addCogsAll]
      refine nodup_keysOf_addCogsAll rest _ ?_
      rw [keysOf_bumpCogs]
      exact nodup_keysOf_ensureRow _ _ h

/-- Folding amounts keeps the date invariant. -/
theorem datesMatch_addOpExAll :
    ∀ (l : List (String × ℚ)) (m : List (String × DayRow)),
    datesMatch m → datesMatch (addOpExAll l m)
  | [], _, h => h
  | (d, v) :: rest, m, h =>
      datesMatch_addOpExAll rest _ (datesMatch_bumpOpEx m d v h)

/-- Folding amounts keeps the date invariant. -/
theorem datesMatch_addCogsAll :
    ∀ (l : List (String × ℚ)) (m : List (String × DayRow)),
    datesMatch m → datesMatch (addCogsAll l m)
  | [], _, h => h
  | (d, v) :: rest, m, h =>
      datesMatch_addCogsAll rest _ (datesMatch_bumpCogs m d v h)

/-- Day keys of a successful expense grouping: the starting keys plus one
key per matching expense with a usable day key. -/
theorem qKeys_groupExpenses {d : String} (w : Bool) :
    ∀ (es : List Expense) (m g : List (String × ℚ)),
    groupExpenses w es m = some g →
    (d ∈ qKeys g ↔ d ∈ qKeys m ∨
      ∃ e, e ∈ es ∧ isCogsExp e = w ∧ expenseIso e = some d ∧ d ≠ "")
  | [], m, g, h => by
      simp only [groupExpenses, Option.some.injEq] at h
      subst h
      simp
  | e :: rest, m, g, h => by
      rw [groupExpenses] at h
      by_cases hc : isCogsExp e ≠ w
      · rw [if_pos hc] at h
        rw [qKeys_groupExpenses w rest m g h]
        constructor
        · rintro (h' | ⟨e', he', hw, hiso', hne⟩)
          · exact Or.inl h'
          · exact Or.inr ⟨e', List.mem_cons_of_mem _ he', hw, hiso', hne⟩
        · rintro (h' | ⟨e', he', hw, hiso', hne⟩)
          · exact Or.inl h'
          · rcases List.mem_cons.mp he' with rfl | he'
            · exact absurd hw hc
            · exact Or.inr ⟨e', he', hw, hiso', hne⟩
      · rw [if_neg hc] at h
        push_neg at hc
        cases hiso : expenseIso e with
        | none =>
            rw [hiso] at h
            simp at h
        | some iso =>
            rw [hiso] at h
            dsimp only at h
            by_cases hempty : iso = ""
            · rw [if_pos hempty] at h
              rw [qKeys_groupExpenses w rest m g h]
              constructor
              · rintro (h' | ⟨e', he', hw, hiso', hne⟩)
                · exact Or.inl h'
                · exact Or.inr ⟨e', List.mem_cons_of_mem _ he', hw, hiso', hne⟩
              · rintro (h' | ⟨e', he', hw, hiso', hne⟩)
                · exact Or.inl h'
                · rcases List.mem_cons.mp he' with rfl | he'
                  · rw [hiso] at hiso'
                    injection hiso' with hd
                    exact absurd (hd ▸ hempty) hne
                  · exact Or.inr ⟨e', he', hw, hiso', hne⟩
            · rw [if_neg hempty] at h
              rw [qKeys_groupExpenses w rest (groupAdd m iso (jsNum e.amount)) g h,
                mem_qKeys_groupAdd]
              constructor
              · rintro ((h' | rfl) | ⟨e', he', hw, hiso', hne⟩)
                · exact Or.inl h'
                · exact Or.inr ⟨e, List.mem_cons_self e rest, hc, hiso, hempty⟩
                · exact Or.inr ⟨e', List.mem_cons_of_mem _ he', hw, hiso', hne⟩
              · rintro (h' | ⟨e', he', hw, hiso', hne⟩)
                · exact Or.inl (Or.inl h')
                · rcases List.mem_cons.mp he' with rfl | he'
                  · rw [hiso] at hiso'
                    injection hiso' with hd
                    exact Or.inl (Or.inr hd.symm)
                  · exact Or.inr ⟨e', he', hw, hiso', hne⟩

/-- C6: the code bug and the intended day-merge shape.  First: an expense
record with no usable date (empty date and created_at) does not get
excluded; it makes the whole day-merge computation throw (modelled as
`none`), because the fallback formats an invalid date and the skip guard
is unreachable.  Second: whenever the merge does produce rows, they carry
exactly one row per distinct usable calendar date across the sales summary
and the expense records (no duplicates, no dropped dates), sorted
ascending by date string. -/
theorem dayRows_unusable_date_code_bug :
    dayRows []
      [{ category := "misc", date := "", created_at := "", amount := .num 5 }] =
      none ∧
    (∀ (sales : List DashRecord) (expenses : List Expense) (rows : List DayRow),
      dayRows sales expenses = some rows →
      (rows.map DayRow.date).Nodup ∧
      List.Sorted dayLe rows ∧
      (∀ d, d ∈ rows.map DayRow.date ↔
        ((∃ r, r ∈ sales ∧ pickDate r = d ∧ d ≠ "") ∨
          (∃ e, e ∈ expenses ∧ expenseIso e = some d ∧ d ≠ "")))) := by
  constructor
  · rfl
  · intro sales expenses rows h
    rw [dayRows] at h
    cases hoe : opExByDate expenses with
    | none =>
        rw [hoe] at h
        simp at h
    | some oe =>
        cases hcg : cogsByDate expenses with
        | none =>
            rw [hoe, hcg] at h
            simp at h
        | some cg =>
            rw [hoe, hcg] at h
            dsimp only at h
            injection h with h
            subst h
            have hoe' : groupExpenses false expenses [] = some oe := hoe
            have hcg' : groupExpenses true expenses [] = some cg := hcg
            have hnodupkeys :
                (keysOf (addCogsAll cg (addOpExAll oe (seedSales sales [])))).Nodup :=
              nodup_keysOf_addCogsAll cg _
                (nodup_keysOf_addOpExAll oe _
                  (nodup_keysOf_seedSales sales [] (by simp [keysOf])))
            have hdates :
                datesMatch (addCogsAll cg (addOpExAll oe (seedSales sales []))) :=
              datesMatch_addCogsAll cg _
                (datesMatch_addOpExAll oe _
                  (datesMatch_seedSales sales []
                    (fun p hp => absurd hp (List.not_mem_nil p))))
            have hperm :
                (List.insertionSort dayLe
                  ((addCogsAll cg (addOpExAll oe (seedSales sales []))).map
                    Prod.snd)).Perm
                  ((addCogsAll cg (addOpExAll oe (seedSales sales []))).map
                    Prod.snd) :=
              List.perm_insertionSort dayLe _
            have hmapdate :
                ((addCogsAll cg (addOpExAll oe (seedSales sales []))).map
                    Prod.snd).map DayRow.date =
                  keysOf (addCogsAll cg (addOpExAll oe (seedSales sales []))) := by
              rw [List.map_map]
              exact List.map_congr_left (fun p hp => hdates p hp)
            refine ⟨?_, ?_, ?_⟩
            · have hp2 := (hperm.map DayRow.date)
              rw [hmapdate] at hp2
              exact hp2.nodup_iff.mpr hnodupkeys
            · exact List.sorted_insertionSort dayLe _
            · intro d
              have hmem := @List.Perm.mem_iff String d _ _ (hperm.map DayRow.date)
              rw [hmapdate] at hmem
              rw [hmem, mem_keysOf_addCogsAll, mem_keysOf_addOpExAll,
                mem_keysOf_seedSales]
              have hoeK : d ∈ qKeys oe ↔
                  ∃ e, e ∈ expenses ∧ isCogsExp e = false ∧
                    expenseIso e = some d ∧ d ≠ "" := by
                rw [qKeys_groupExpenses false expenses [] oe hoe']
                simp [qKeys]
              have hcgK : d ∈ qKeys cg ↔
                  ∃ e, e ∈ expenses ∧ isCogsExp e = true ∧
                    expenseIso e = some d ∧ d ≠ "" := by
                rw [qKeys_groupExpenses true expenses [] cg hcg']
                simp [qKeys]
              rw [hoeK, hcgK]
              simp only [keysOf, List.map_nil, List.not_mem_nil, false_or]
              constructor
              · rintro ((hs | ⟨e, he, _, hi, hne⟩) | ⟨e, he, _, hi, hne⟩)
                · exact Or.inl hs
                · exact Or.inr ⟨e, he, hi, hne⟩
                · exact Or.inr ⟨e, he, hi, hne⟩
              · rintro (hs | ⟨e, he, hi, hne⟩)
                · exact Or.inl (Or.inl hs)
                · cases hcw : isCogsExp e with
                  | false => exact Or.inl (Or.inr ⟨e, he, hcw, hi, hne⟩)
                  | true => exact Or.inr ⟨e, he, hcw, hi, hne⟩

/-- A one-record sales summary used to instantiate the day-merge claim. -/
def salesDemo : List DashRecord :=
  [{ date := "2024-01-02", gross := .num 100, paid := .num 70 }]

/-- A one-record expense list used to instantiate the day-merge claim. -/
def expensesDemo : List Expense :=
  [{ category := "misc", date := "2024-01-03", amount := .num 7 }]

/-- C6 witness: the day-merge shape applied to the concrete demo inputs
(both groupings succeed there): distinct dates, sorted rows, and the
expense-only day present in the output. -/
theorem dayRows_unusable_date_code_bug_w :
    (((dayRows salesDemo expensesDemo).getD []).map DayRow.date).Nodup ∧
    List.Sorted dayLe ((dayRows salesDemo expensesDemo).getD []) ∧
    "2024-01-03" ∈ ((dayRows salesDemo expensesDemo).getD []).map DayRow.date := by
  have hsome : dayRows salesDemo expensesDemo =
      some ((dayRows salesDemo expensesDemo).getD []) := rfl
  obtain ⟨h1, h2, h3⟩ :=
    dayRows_unusable_date_code_bug.2 salesDemo expensesDemo _ hsome
  refine ⟨h1, h2, ?_⟩
  exact (h3 "2024-01-03").mpr
    (Or.inr ⟨{ category := "misc", date := "2024-01-03", amount := .num 7 },
      by simp [expensesDemo], rfl, by decide⟩)
